import Mathlib

/-!
Shallow embedding of the "Chaos Codec" pipeline from
`Chaos_Theory_Based_Compression.ipynb`.

Floating-point samples are modelled as rationals (`ℚ`), with the arithmetic
of the source carried out exactly.  Python slices are translated literally:
`x[:-2]` is `x.take (x.length - 2)`, `x[1:-1]` is
`(x.drop 1).take (x.length - 2)`, `x[2:]` is `x.drop 2`, and `[::-1]` is
`List.reverse`.  `np.round` rounds half to even; `np.clip (lo := -32768)
(hi := 32767)` is `max`/`min` on `ℤ`.  The external capabilities (the
least-squares fitter, `pickle`, `zlib`, `float16` narrowing) are parameters:
fitted coefficients appear as free rational arguments, the byte-level
functions as abstract function arguments.
-/

/-- STEP 2 feature matrix: `np.vstack([x[:-2], x[1:-1], x[1:-1]**2]).T`.
Row `t` is the triple `(x[t], x[t+1], x[t+1]^2)`. -/
def henonX (x : List ℚ) : List (ℚ × ℚ × ℚ) :=
  List.zip (x.take (x.length - 2))
    (List.zip ((x.drop 1).take (x.length - 2))
      (((x.drop 1).take (x.length - 2)).map (fun v => v ^ 2)))

/-- STEP 2 target vector: `y = logistic_signal[2:]`. -/
def henonY (x : List ℚ) : List ℚ := x.drop 2

/-- One step of the Hénon-style recurrence:
`W1*xn1 + W2*xn + W3*xn**2 + b` (the appended value in STEP 3's loop). -/
def henonNext (W1 W2 W3 b u v : ℚ) : ℚ := W1 * u + W2 * v + W3 * v ^ 2 + b

/-- STEP 3's loop, carrying the two rolling values `xn1 = r[-2]`, `xn = r[-1]`
and the number of samples still to append.  `reconChain W1 W2 W3 b a c m` is
the list produced from seeds `a, c` after `m` loop iterations. -/
def reconChain (W1 W2 W3 b : ℚ) : ℚ → ℚ → Nat → List ℚ
  | a, c, 0 => [a, c]
  | a, c, m + 1 => a :: reconChain W1 W2 W3 b c (henonNext W1 W2 W3 b a c) m

/-- STEP 3: `reconstructed_base = [x[0], x[1]]` followed by
`len(x) - 2` iterations appending `W1*r[-2] + W2*r[-1] + W3*r[-1]**2 + b`.
The source indexes `x[0]` and `x[1]` directly, so it raises for inputs of
length `< 2`; that (unreachable under every claim) case returns `[]` here. -/
def reconstructed_base (W1 W2 W3 b : ℚ) (x : List ℚ) : List ℚ :=
  match x with
  | x0 :: x1 :: rest => reconChain W1 W2 W3 b x0 x1 rest.length
  | _ => []

/-- STEP 4: `residuals = logistic_signal - reconstructed_base`. -/
def residualsOf (W1 W2 W3 b : ℚ) (x : List ℚ) : List ℚ :=
  List.zipWith (· - ·) x (reconstructed_base W1 W2 W3 b x)

/-- STEP 4 mirror feature matrix:
`np.vstack([x[:-2][::-1], x[1:-1][::-1]]).T`; row `t` is the pair of the
`t`-th entries of the two reversed slices. -/
def X_mirror (x : List ℚ) : List (ℚ × ℚ) :=
  List.zip (x.take (x.length - 2)).reverse
    ((x.drop 1).take (x.length - 2)).reverse

/-- STEP 4 mirror target vector: `y_resid = residuals[2:][::-1]`. -/
def y_resid (residuals : List ℚ) : List ℚ := (residuals.drop 2).reverse

/-- STEP 5: the residual-prediction loop followed by
`resid_pred = [0, 0] + resid_pred[::-1]`.  The loop reads
`m1 = x[::-1][i]`, `m2 = x[::-1][i+1]` for `i = 0 .. len(x)-3` and appends
`R1*m1 + R2*m2 + Rb`; the `getD _ 0` default is never reached for those
in-range indices. -/
def resid_pred (R1 R2 Rb : ℚ) (x : List ℚ) : List ℚ :=
  let rev := x.reverse
  let raw := (List.range (x.length - 2)).map
    (fun i => R1 * rev.getD i 0 + R2 * rev.getD (i + 1) 0 + Rb)
  0 :: 0 :: raw.reverse

/-- STEP 5: `base_plus_mirror = reconstructed_base + np.array(resid_pred)`. -/
def base_plus_mirror (W1 W2 W3 b R1 R2 Rb : ℚ) (x : List ℚ) : List ℚ :=
  List.zipWith (· + ·) (reconstructed_base W1 W2 W3 b x)
    (resid_pred R1 R2 Rb x)

/-- STEP 6: `delta = logistic_signal - base_plus_mirror`. -/
def deltaOf (hybrid x : List ℚ) : List ℚ := List.zipWith (· - ·) x hybrid

/-- `np.round`: round half to even (banker's rounding), on exact rationals. -/
def roundHalfEven (q : ℚ) : ℤ :=
  if q - ⌊q⌋ < 1 / 2 then ⌊q⌋
  else if 1 / 2 < q - ⌊q⌋ then ⌊q⌋ + 1
  else if ⌊q⌋ % 2 = 0 then ⌊q⌋ else ⌊q⌋ + 1

/-- `np.clip(z, -32768, 32767)` on integers. -/
def clampQ (z : ℤ) : ℤ := max (-32768) (min z 32767)

/-- One element of STEP 6's quantizer: `clip(round(d * scale), -32768, 32767)`.
The subsequent `astype(np.int16)` is exact because the value is already in
`[-32768, 32767]`. -/
def quantizeOne (scale d : ℚ) : ℤ := clampQ (roundHalfEven (d * scale))

/-- STEP 6: `delta_q = np.clip(np.round(delta*scale), -32768, 32767).astype(np.int16)`. -/
def delta_q (scale : ℚ) (delta : List ℚ) : List ℤ :=
  delta.map (quantizeOne scale)

/-- STEP 7's per-element dequantization `q / scale` (the `float32` cast is
modelled as exact rational division). -/
def dequantOne (scale : ℚ) (z : ℤ) : ℚ := (z : ℚ) / scale

/-- STEP 7: `reconstructed_final = base_plus_mirror + delta_q / scale`. -/
def reconstructed_final (W1 W2 W3 b R1 R2 Rb scale : ℚ) (x : List ℚ) : List ℚ :=
  let hybrid := base_plus_mirror W1 W2 W3 b R1 R2 Rb x
  List.zipWith (· + ·) hybrid
    ((delta_q scale (deltaOf hybrid x)).map (dequantOne scale))

/-- A fitted linear model: ordered coefficients plus an intercept
(3 coefficients for the base model, 2 for the mirror model). -/
structure LinearModel where
  coef : List ℚ
  intercept : ℚ

/-- STEP 9's weight vector `[W1, W2, W3, b, R1, R2, Rb]`, read off a base and
a mirror model by positional destructuring as the source does. -/
def weightsList (bm mm : LinearModel) : List ℚ :=
  [bm.coef.getD 0 0, bm.coef.getD 1 0, bm.coef.getD 2 0, bm.intercept,
   mm.coef.getD 0 0, mm.coef.getD 1 0, mm.intercept]

/-- STEP 9: `zlib.compress(pickle.dumps(np.array(weights, dtype=np.float16)))`,
with `float16` narrowing, pickling and compression as abstract capabilities. -/
def encode_models (toF16 : ℚ → ℚ) (pickleW : List ℚ → List Nat)
    (compressFn : List Nat → List Nat) (bm mm : LinearModel) : List Nat :=
  compressFn (pickleW ((weightsList bm mm).map toF16))

/-- STEPS 2-9 as one encoder run: the pair of the residual payload
(`zlib.compress(pickle.dumps({"residuals": delta_q, "scale": scale}))`) and
the weights payload, for a fixed configuration (scale, narrowing precision)
and fixed fitted coefficients. -/
def encodePayloads (toF16 : ℚ → ℚ) (pickleW : List ℚ → List Nat)
    (pickleR : List ℤ → ℚ → List Nat) (compressFn : List Nat → List Nat)
    (W1 W2 W3 b R1 R2 Rb scale : ℚ) (x : List ℚ) : List Nat × List Nat :=
  let hybrid := base_plus_mirror W1 W2 W3 b R1 R2 Rb x
  let dq := delta_q scale (deltaOf hybrid x)
  (compressFn (pickleR dq scale),
   compressFn (pickleW ((weightsList ⟨[W1, W2, W3], b⟩ ⟨[R1, R2], Rb⟩).map toF16)))

example : reconstructed_base 1 1 1 1 [0, 1, 2] = [0, 1, 3] := by
  norm_num [reconstructed_base, reconChain, henonNext]

example : X_mirror [10, 20, 30, 40] = [(20, 30), (10, 20)] := by
  norm_num [X_mirror]

example : resid_pred 1 1 0 [0, 1, 2] = [0, 0, 3] := by
  norm_num [resid_pred, List.range_succ]

example : quantizeOne 10000 4 = 32767 := by
  norm_num [quantizeOne, roundHalfEven, clampQ]

/-! ### Helper lemmas about the base recurrence -/

theorem reconChain_length (W1 W2 W3 b : ℚ) :
    ∀ (m : Nat) (a c : ℚ), (reconChain W1 W2 W3 b a c m).length = m + 2 := by
  intro m
  induction m with
  | zero => intro a c; rfl
  | succ m ih =>
    intro a c
    simp only [reconChain, List.length_cons, ih]

theorem reconChain_getElem_zero (W1 W2 W3 b : ℚ) (m : Nat) (a c : ℚ) :
    (reconChain W1 W2 W3 b a c m)[0]? = some a := by
  cases m <;> simp [reconChain]

theorem reconChain_getElem_one (W1 W2 W3 b : ℚ) (m : Nat) (a c : ℚ) :
    (reconChain W1 W2 W3 b a c m)[1]? = some c := by
  cases m with
  | zero => rfl
  | succ m => simp [reconChain, reconChain_getElem_zero]

theorem reconChain_cons_cons (W1 W2 W3 b : ℚ) :
    ∀ (m : Nat) (a c : ℚ), ∃ t, reconChain W1 W2 W3 b a c m = a :: c :: t := by
  intro m
  induction m with
  | zero => intro a c; exact ⟨[], rfl⟩
  | succ m ih =>
    intro a c
    obtain ⟨t, ht⟩ := ih c (henonNext W1 W2 W3 b a c)
    exact ⟨henonNext W1 W2 W3 b a c :: t, by simp [reconChain, ht]⟩

theorem reconChain_rec (W1 W2 W3 b : ℚ) :
    ∀ (m : Nat) (a c : ℚ) (i : Nat) (u v : ℚ),
      i + 2 < m + 2 →
      (reconChain W1 W2 W3 b a c m)[i]? = some u →
      (reconChain W1 W2 W3 b a c m)[i + 1]? = some v →
      (reconChain W1 W2 W3 b a c m)[i + 2]? = some (henonNext W1 W2 W3 b u v) := by
  intro m
  induction m with
  | zero => intro a c i u v hi; omega
  | succ m ih =>
    intro a c i u v hi hu hv
    cases i with
    | zero =>
      simp only [reconChain, List.getElem?_cons_zero] at hu
      simp only [reconChain, List.getElem?_cons_succ] at hv
      rw [reconChain_getElem_zero] at hv
      simp only [reconChain, List.getElem?_cons_succ]
      rw [reconChain_getElem_one]
      obtain rfl : a = u := by injection hu
      obtain rfl : c = v := by injection hv
      rfl
    | succ i =>
      simp only [reconChain, List.getElem?_cons_succ] at hu hv ⊢
      exact ih c (henonNext W1 W2 W3 b a c) i u v (by omega) hu hv

theorem reconstructed_base_length (W1 W2 W3 b : ℚ) (x : List ℚ)
    (h : 2 ≤ x.length) : (reconstructed_base W1 W2 W3 b x).length = x.length := by
  match x, h with
  | x0 :: x1 :: rest, _ =>
    simp [reconstructed_base, reconChain_length]

theorem residualsOf_length (W1 W2 W3 b : ℚ) (x : List ℚ)
    (h : 2 ≤ x.length) : (residualsOf W1 W2 W3 b x).length = x.length := by
  simp [residualsOf, reconstructed_base_length W1 W2 W3 b x h]

/-! ### Helper lemmas about the mirror prediction -/

theorem resid_pred_length (R1 R2 Rb : ℚ) (x : List ℚ) :
    (resid_pred R1 R2 Rb x).length = (x.length - 2) + 2 := by
  simp [resid_pred]

theorem resid_pred_getElem (R1 R2 Rb : ℚ) (x : List ℚ) (i : Nat) (a c : ℚ)
    (h3 : 3 ≤ x.length) (hi : i < x.length - 2)
    (ha : x.reverse[i]? = some a) (hc : x.reverse[i + 1]? = some c) :
    (resid_pred R1 R2 Rb x)[x.length - 1 - i]? = some (R1 * a + R2 * c + Rb) := by
  simp only [resid_pred]
  have hidx : x.length - 1 - i = (x.length - 3 - i) + 2 := by omega
  rw [hidx]
  simp only [List.getElem?_cons_succ]
  rw [List.getElem?_reverse (by simp; omega)]
  simp only [List.length_map, List.length_range]
  have heq : x.length - 2 - 1 - (x.length - 3 - i) = i := by omega
  rw [heq, List.getElem?_map, List.getElem?_range hi]
  simp [List.getD_eq_getElem?_getD, ha, hc]

/-! ### Helper lemmas about rounding and clamping -/

theorem roundHalfEven_floor_or (q : ℚ) :
    roundHalfEven q = ⌊q⌋ ∨ roundHalfEven q = ⌊q⌋ + 1 := by
  unfold roundHalfEven
  split_ifs <;> simp

theorem abs_roundHalfEven_sub (q : ℚ) :
    |(roundHalfEven q : ℚ) - q| ≤ 1 / 2 := by
  have hf := Int.floor_le q
  have hc := Int.lt_floor_add_one q
  unfold roundHalfEven
  split_ifs with h1 h2 h3 <;>
    rw [abs_le] <;> constructor <;> push_cast <;> linarith

theorem roundHalfEven_ge_top (q : ℚ) (h : (32767.5 : ℚ) ≤ q) :
    32768 ≤ roundHalfEven q := by
  have h1 : (32767 : ℤ) ≤ ⌊q⌋ := by
    rw [Int.le_floor]
    push_cast
    linarith
  unfold roundHalfEven
  split_ifs with ha hb hcond
  · by_contra hcon
    have hq : ⌊q⌋ = 32767 := by omega
    rw [hq] at ha
    push_cast at ha
    linarith
  · omega
  · by_contra hcon
    have hq : ⌊q⌋ = 32767 := by omega
    omega
  · omega

theorem roundHalfEven_le_bot (q : ℚ) (h : q ≤ (-32768.5 : ℚ)) :
    roundHalfEven q ≤ -32768 := by
  have h1 : ⌊q⌋ < -32768 := by
    rw [Int.floor_lt]
    push_cast
    linarith
  rcases roundHalfEven_floor_or q with he | he <;> omega

theorem clampQ_mem (z : ℤ) : -32768 ≤ clampQ z ∧ clampQ z ≤ 32767 := by
  unfold clampQ
  omega

theorem clampQ_of_ge (z : ℤ) (h : 32768 ≤ z) : clampQ z = 32767 := by
  unfold clampQ
  omega

theorem clampQ_of_le (z : ℤ) (h : z ≤ -32768) : clampQ z = -32768 := by
  unfold clampQ
  omega

theorem clampQ_of_mem (z : ℤ) (hlo : -32768 ≤ z) (hhi : z ≤ 32767) :
    clampQ z = z := by
  unfold clampQ
  omega

theorem roundHalfEven_zero : roundHalfEven 0 = 0 := by
  norm_num [roundHalfEven]

theorem quantizeOne_zero (scale : ℚ) : quantizeOne scale 0 = 0 := by
  simp [quantizeOne, roundHalfEven_zero, clampQ]

/-! ### Claim theorems -/

/-- C4: the quantizer computes `q[i] = clamp(round(delta[i] * S), -32768, 32767)`,
every stored integer lies in `[-32768, 32767]`, any delta with
`delta*S >= 32767.5` maps to exactly `32767`, and any delta with
`delta*S <= -32768.5` maps to exactly `-32768`. -/
theorem quantizer_clamps (scale : ℚ) (dl : List ℚ) :
    delta_q scale dl = dl.map (fun d => clampQ (roundHalfEven (d * scale))) ∧
    (∀ q ∈ delta_q scale dl, -32768 ≤ q ∧ q ≤ 32767) ∧
    (∀ d : ℚ, (32767.5 : ℚ) ≤ d * scale → quantizeOne scale d = 32767) ∧
    (∀ d : ℚ, d * scale ≤ (-32768.5 : ℚ) → quantizeOne scale d = -32768) := by
  refine ⟨rfl, ?_, ?_, ?_⟩
  · intro q hq
    simp only [delta_q, List.mem_map] at hq
    obtain ⟨d, -, rfl⟩ := hq
    exact clampQ_mem _
  · intro d hd
    simp only [quantizeOne]
    exact clampQ_of_ge _ (roundHalfEven_ge_top _ hd)
  · intro d hd
    simp only [quantizeOne]
    exact clampQ_of_le _ (roundHalfEven_le_bot _ hd)

/-- Witness for C4 at `scale = 10000`, `delta = 4`: `4 * 10000 = 40000` is past
the positive clipping boundary and quantizes to exactly `32767`. -/
theorem quantizer_clamps_witness :
    (32767.5 : ℚ) ≤ 4 * 10000 ∧ quantizeOne 10000 4 = 32767 :=
  ⟨by norm_num, (quantizer_clamps 10000 []).2.2.1 4 (by norm_num)⟩

/-- C5: for any delta whose scaled rounding is not clipped and any positive
scale, dequantizing the quantized value differs from the original delta by at
most `0.5 / scale` (the exact-arithmetic version of the claim's bound). -/
theorem quant_roundtrip (d scale : ℚ) (hs : 0 < scale)
    (hlo : -32768 ≤ roundHalfEven (d * scale))
    (hhi : roundHalfEven (d * scale) ≤ 32767) :
    |dequantOne scale (quantizeOne scale d) - d| ≤ 1 / 2 / scale := by
  have hne : scale ≠ 0 := ne_of_gt hs
  have hcl : quantizeOne scale d = roundHalfEven (d * scale) := by
    simp only [quantizeOne]
    exact clampQ_of_mem _ hlo hhi
  rw [hcl]
  have hrw : dequantOne scale (roundHalfEven (d * scale)) - d
      = (((roundHalfEven (d * scale) : ℚ)) - d * scale) / scale := by
    simp only [dequantOne]
    field_simp
    ring
  rw [hrw, abs_div, abs_of_pos hs, div_le_div_iff_of_pos_right hs]
  exact abs_roundHalfEven_sub _

/-- Witness for C5 at `delta = 1/5000`, `scale = 10000`: the scaled delta is
exactly `2`, well inside the representable range. -/
theorem quant_roundtrip_witness :
    (0 : ℚ) < 10000 ∧
    |dequantOne 10000 (quantizeOne 10000 (1 / 5000)) - 1 / 5000| ≤ 1 / 2 / 10000 :=
  ⟨by norm_num,
   quant_roundtrip (1 / 5000) 10000 (by norm_num)
     (by norm_num [roundHalfEven]) (by norm_num [roundHalfEven])⟩

/-- C7: encoding is deterministic — running the encode pipeline twice on the
same signal with the same configuration (scale, narrowing precision, byte
serializer and compressor) yields identical payload pairs.  The embedding is a
pure function because the source consults no external state or randomness. -/
theorem encode_deterministic (toF16 : ℚ → ℚ) (pickleW : List ℚ → List Nat)
    (pickleR : List ℤ → ℚ → List Nat) (compressFn : List Nat → List Nat)
    (W1 W2 W3 b R1 R2 Rb scale : ℚ) (x : List ℚ) :
    encodePayloads toF16 pickleW pickleR compressFn W1 W2 W3 b R1 R2 Rb scale x
      = encodePayloads toF16 pickleW pickleR compressFn W1 W2 W3 b R1 R2 Rb scale x :=
  rfl

/-- C8: `encode_models` concatenates the 3 base coefficients, the base
intercept, the 2 mirror coefficients and the mirror intercept, in that fixed
order, narrows each entry to 16-bit float, serializes, then byte-compresses. -/
theorem encode_models_layout (toF16 : ℚ → ℚ) (pickleW : List ℚ → List Nat)
    (compressFn : List Nat → List Nat) (bm mm : LinearModel)
    (hb : bm.coef.length = 3) (hm : mm.coef.length = 2) :
    encode_models toF16 pickleW compressFn bm mm
      = compressFn (pickleW
          ((bm.coef ++ [bm.intercept] ++ mm.coef ++ [mm.intercept]).map toF16)) := by
  obtain ⟨a1, a2, a3, hb'⟩ := List.length_eq_three.1 hb
  obtain ⟨c1, c2, hm'⟩ := List.length_eq_two.1 hm
  cases bm
  cases mm
  simp only at hb' hm'
  subst hb' hm'
  rfl

/-- Witness for C8 on concrete three- and two-coefficient models with identity
narrowing, a length-recording serializer and the identity compressor. -/
theorem encode_models_layout_witness :
    encode_models (fun v => v) (fun l => [l.length]) (fun l => l)
        (LinearModel.mk [1, 2, 3] 4) (LinearModel.mk [5, 6] 7)
      = (fun l => l) ((fun l : List ℚ => [l.length])
          ((([1, 2, 3] ++ [4] ++ [5, 6] ++ [7]) : List ℚ).map (fun v => v))) :=
  encode_models_layout (fun v => v) (fun l => [l.length]) (fun l => l)
    (LinearModel.mk [1, 2, 3] 4) (LinearModel.mk [5, 6] 7) rfl rfl

/-- C2: for every signal of length at least 3, the base reconstruction has
the same length, copies the first two samples verbatim, and satisfies the
autoregressive recurrence
`out[i+2] = W1*out[i] + W2*out[i+1] + W3*out[i+1]^2 + b`, computed from the
model's own prior outputs (the recurrence reads the output list itself, never
the input signal, for indices >= 2). -/
theorem base_reconstruct_spec (W1 W2 W3 b : ℚ) (x : List ℚ) (h : 3 ≤ x.length) :
    (reconstructed_base W1 W2 W3 b x).length = x.length ∧
    (reconstructed_base W1 W2 W3 b x)[0]? = x[0]? ∧
    (reconstructed_base W1 W2 W3 b x)[1]? = x[1]? ∧
    ∀ (i : Nat) (u v : ℚ),
      (reconstructed_base W1 W2 W3 b x)[i]? = some u →
      (reconstructed_base W1 W2 W3 b x)[i + 1]? = some v →
      i + 2 < x.length →
      (reconstructed_base W1 W2 W3 b x)[i + 2]?
        = some (W1 * u + W2 * v + W3 * v ^ 2 + b) := by
  rcases x with _ | ⟨x0, _ | ⟨x1, rest⟩⟩
  · simp at h
  · simp at h
  · refine ⟨?_, ?_, ?_, ?_⟩
    · simp [reconstructed_base, reconChain_length]
    · simp [reconstructed_base, reconChain_getElem_zero]
    · simp [reconstructed_base, reconChain_getElem_one]
    · intro i u v hu hv hlen
      simp only [reconstructed_base] at hu hv ⊢
      have hl : i + 2 < rest.length + 2 := by
        simp only [List.length_cons] at hlen
        omega
      simpa [henonNext] using
        reconChain_rec W1 W2 W3 b rest.length x0 x1 i u v hl hu hv

/-- Witness for C2 on the signal `[0, 1, 2]` with all-one coefficients: the
third output is the recurrence applied to the two copied seeds. -/
theorem base_reconstruct_spec_witness :
    (reconstructed_base 1 1 1 1 [0, 1, 2])[2]?
      = some (1 * 0 + 1 * 1 + 1 * 1 ^ 2 + 1) :=
  (base_reconstruct_spec 1 1 1 1 [0, 1, 2] (by norm_num)).2.2.2 0 0 1
    (by norm_num [reconstructed_base, reconChain])
    (by norm_num [reconstructed_base, reconChain])
    (by norm_num)

/-- C3: for every signal of length at least 3, the mirror residual prediction
has the same length, its first two entries are exactly zero, and the raw
prediction for index `i` of the reversed signal,
`R1*rev[i] + R2*rev[i+1] + Rb`, lands (after the final reversal) at position
`length - 1 - i` of the output, computed directly from the true signal. -/
theorem mirror_apply_spec (R1 R2 Rb : ℚ) (x : List ℚ) (h : 3 ≤ x.length) :
    (resid_pred R1 R2 Rb x).length = x.length ∧
    (resid_pred R1 R2 Rb x)[0]? = some 0 ∧
    (resid_pred R1 R2 Rb x)[1]? = some 0 ∧
    ∀ (i : Nat) (a c : ℚ), i < x.length - 2 →
      x.reverse[i]? = some a → x.reverse[i + 1]? = some c →
      (resid_pred R1 R2 Rb x)[x.length - 1 - i]? = some (R1 * a + R2 * c + Rb) := by
  refine ⟨?_, ?_, ?_, ?_⟩
  · rw [resid_pred_length]
    omega
  · simp [resid_pred]
  · simp [resid_pred]
  · intro i a c hi ha hc
    exact resid_pred_getElem R1 R2 Rb x i a c h hi ha hc

/-- Witness for C3 on the signal `[0, 1, 2]`: the raw prediction at reversed
index 0 uses `rev[0] = 2` and `rev[1] = 1` and lands at output position 2. -/
theorem mirror_apply_spec_witness :
    (resid_pred 1 1 0 [0, 1, 2])[2]? = some (1 * 2 + 1 * 1 + 0) :=
  (mirror_apply_spec 1 1 0 [0, 1, 2] (by norm_num)).2.2.2 0 2 1
    (by norm_num) (by norm_num) (by norm_num)

/-- C9: the double reversal collapses to a forward formula — for
`2 <= i < length`, the mirror prediction in original sample order is
`R1*signal[i] + R2*signal[i-1] + Rb`, a function of the current sample and its
immediate predecessor. -/
theorem mirror_forward_formula (R1 R2 Rb : ℚ) (x : List ℚ) (i : Nat)
    (h3 : 3 ≤ x.length) (h2 : 2 ≤ i) (hi : i < x.length) (a c : ℚ)
    (ha : x[i]? = some a) (hc : x[i - 1]? = some c) :
    (resid_pred R1 R2 Rb x)[i]? = some (R1 * a + R2 * c + Rb) := by
  have hj : x.length - 1 - (x.length - 1 - i) = i := by omega
  have hrev1 : x.reverse[x.length - 1 - i]? = some a := by
    rw [List.getElem?_reverse (by omega), hj]
    exact ha
  have hrev2 : x.reverse[(x.length - 1 - i) + 1]? = some c := by
    rw [List.getElem?_reverse (by omega)]
    have hidx : x.length - 1 - (x.length - 1 - i + 1) = i - 1 := by omega
    rw [hidx]
    exact hc
  have hmain := resid_pred_getElem R1 R2 Rb x (x.length - 1 - i) a c h3
    (by omega) hrev1 hrev2
  rw [hj] at hmain
  exact hmain

/-- Witness for C9 on the signal `[0, 1, 2]` at `i = 2`: the prediction there
is `R1*x[2] + R2*x[1] + Rb` with no reversed access. -/
theorem mirror_forward_formula_witness :
    (resid_pred 1 2 0 [0, 1, 2])[2]? = some (1 * 2 + 2 * 1 + 0) :=
  mirror_forward_formula 1 2 0 [0, 1, 2] 2 (by norm_num) (by norm_num)
    (by norm_num) 2 1 (by norm_num) (by norm_num)

/-- C1 counterexample: on the signal `[10, 20, 30, 40]` the first training
row of the mirror feature matrix is `(20, 30)` — the slices `x[:-2]` and
`x[1:-1]` are themselves reversed before stacking — and not the forward-order
row `(x[0], x[1]) = (10, 20)` the claim asserts. -/
theorem mirror_features_not_forward :
    (X_mirror [10, 20, 30, 40])[0]? = some ((20 : ℚ), (30 : ℚ)) ∧
    (X_mirror [10, 20, 30, 40])[0]? ≠ some ((10 : ℚ), (20 : ℚ)) := by
  constructor
  · norm_num [X_mirror]
  · norm_num [X_mirror]

/-- C1 (amended): both the mirror features and the mirror targets are taken in
reverse sample order — row `t` of the feature matrix is
`(x[N-3-t], x[N-2-t])` and its target is `residual[N-1-t]`, so every training
row pairs the features `[x[s-2], x[s-1]]` with the target `residual[s]` for
`s = N-1-t` (the rows are index-aligned, merely enumerated in reverse). -/
theorem mirror_training_alignment (W1 W2 W3 b : ℚ) (x : List ℚ) (t : Nat)
    (h3 : 3 ≤ x.length) (ht : t < x.length - 2) (a c r : ℚ)
    (ha : x[x.length - 3 - t]? = some a) (hc : x[x.length - 2 - t]? = some c)
    (hr : (residualsOf W1 W2 W3 b x)[x.length - 1 - t]? = some r) :
    (X_mirror x)[t]? = some (a, c) ∧
    (y_resid (residualsOf W1 W2 W3 b x))[t]? = some r := by
  have hlen : (residualsOf W1 W2 W3 b x).length = x.length :=
    residualsOf_length W1 W2 W3 b x (by omega)
  constructor
  · rw [X_mirror, List.getElem?_zip_eq_some]
    constructor
    · rw [List.getElem?_reverse (by simp; omega)]
      simp only [List.length_take]
      have h4 : min (x.length - 2) x.length - 1 - t = x.length - 3 - t := by
        omega
      rw [h4, List.getElem?_take, if_pos (by omega)]
      exact ha
    · rw [List.getElem?_reverse (by simp; omega)]
      simp only [List.length_take, List.length_drop]
      have h4 : min (x.length - 2) (x.length - 1) - 1 - t = x.length - 3 - t := by
        omega
      rw [h4, List.getElem?_take, if_pos (by omega), List.getElem?_drop]
      have h5 : 1 + (x.length - 3 - t) = x.length - 2 - t := by omega
      rw [h5]
      exact hc
  · rw [y_resid, List.getElem?_reverse (by simp [hlen]; omega)]
    simp only [List.length_drop, hlen]
    have h4 : x.length - 2 - 1 - t = x.length - 3 - t := by omega
    rw [h4, List.getElem?_drop]
    have h5 : 2 + (x.length - 3 - t) = x.length - 1 - t := by omega
    rw [h5]
    exact hr

/-- Witness for the amended C1 on the signal `[10, 20, 30, 40]` (with zero
base coefficients the base reconstruction is `[10, 20, 0, 0]`, so
`residual[3] = 40`): training row 0 is `((20, 30), 40)`. -/
theorem mirror_training_alignment_witness :
    (X_mirror [10, 20, 30, 40])[0]? = some ((20 : ℚ), (30 : ℚ)) ∧
    (y_resid (residualsOf 0 0 0 0 [10, 20, 30, 40]))[0]? = some (40 : ℚ) :=
  mirror_training_alignment 0 0 0 0 [10, 20, 30, 40] 0 (by norm_num)
    (by norm_num) 20 30 40 (by norm_num) (by norm_num)
    (by norm_num [residualsOf, reconstructed_base, reconChain, henonNext])

/-- C6 counterexample: the finite signal `[1/2, 1/2]` has length `2 < 3`, yet
the encoder does not reject it — the base training features are still built
(an empty feature matrix is handed to the fitting capability) and, for any
fitted coefficients (zeros shown here), the pipeline runs to completion and
produces a complete length-2 output rather than failing with an InvalidInput
error. -/
theorem no_rejection_short_input :
    (([(1 : ℚ) / 2, 1 / 2] : List ℚ).length < 3) ∧
    henonX [(1 : ℚ) / 2, 1 / 2] = [] ∧
    reconstructed_final 0 0 0 0 0 0 0 10000 [(1 : ℚ) / 2, 1 / 2]
      = [1 / 2, 1 / 2] := by
  refine ⟨by norm_num, by norm_num [henonX], ?_⟩
  norm_num [reconstructed_final, base_plus_mirror, reconstructed_base,
    reconChain, resid_pred, deltaOf, delta_q, quantizeOne, clampQ,
    roundHalfEven, dequantOne]

/-- C6 (amended): the encoder performs no input-validation step.  A signal of
length exactly 2 (shorter than the required minimum of 3) is not rejected
before training: the base training features are still constructed (an empty
matrix is passed to the external fitting capability) and, for any
coefficients that capability returns, the pipeline produces a complete
output of length 2.  For such a length-2 signal any failure can only arise
inside the external fitting routine, not from an InvalidInput check of the
encoder itself.  (This says nothing about lengths 0 and 1, where the source
raises an IndexError while seeding the base reconstruction.) -/
theorem no_input_validation (W1 W2 W3 b R1 R2 Rb scale : ℚ) (x : List ℚ)
    (h : x.length = 2) :
    (reconstructed_final W1 W2 W3 b R1 R2 Rb scale x).length = 2 ∧
    henonX x = [] := by
  obtain ⟨a, c, rfl⟩ := List.length_eq_two.1 h
  constructor
  · simp [reconstructed_final, base_plus_mirror, reconstructed_base,
      reconChain, resid_pred, deltaOf, delta_q]
  · simp [henonX]

/-- Witness for the amended C6 at the length-2 signal `[1, 2]`. -/
theorem no_input_validation_witness :
    (reconstructed_final 0 0 0 0 0 0 0 10000 [1, 2]).length = 2 ∧
    henonX [1, 2] = [] :=
  no_input_validation 0 0 0 0 0 0 0 10000 [1, 2] rfl

/-- C10: for every signal of length at least 3, the hybrid reconstruction
agrees with the signal at indices 0 and 1 (the base copies the seeds and the
mirror prediction there is zero), hence the quantized delta at indices 0 and
1 is zero and the final reconstruction is exact at those two indices. -/
theorem seeds_exact (W1 W2 W3 b R1 R2 Rb scale : ℚ) (x : List ℚ)
    (h : 3 ≤ x.length) :
    (base_plus_mirror W1 W2 W3 b R1 R2 Rb x)[0]? = x[0]? ∧
    (base_plus_mirror W1 W2 W3 b R1 R2 Rb x)[1]? = x[1]? ∧
    (delta_q scale (deltaOf (base_plus_mirror W1 W2 W3 b R1 R2 Rb x) x))[0]?
      = some 0 ∧
    (delta_q scale (deltaOf (base_plus_mirror W1 W2 W3 b R1 R2 Rb x) x))[1]?
      = some 0 ∧
    (reconstructed_final W1 W2 W3 b R1 R2 Rb scale x)[0]? = x[0]? ∧
    (reconstructed_final W1 W2 W3 b R1 R2 Rb scale x)[1]? = x[1]? := by
  rcases x with _ | ⟨x0, _ | ⟨x1, rest⟩⟩
  · simp at h
  · simp at h
  · obtain ⟨t, hchain⟩ := reconChain_cons_cons W1 W2 W3 b rest.length x0 x1
    have hbase : reconstructed_base W1 W2 W3 b (x0 :: x1 :: rest)
        = x0 :: x1 :: t := by
      simp [reconstructed_base, hchain]
    have e0 : x0 - (x0 + 0) = 0 := by ring
    have e1 : x1 - (x1 + 0) = 0 := by ring
    refine ⟨?_, ?_, ?_, ?_, ?_, ?_⟩ <;>
      simp [reconstructed_final, base_plus_mirror, deltaOf, delta_q, hbase,
        resid_pred, List.zipWith_cons_cons, e0, e1, quantizeOne_zero,
        dequantOne]

/-- Witness for C10 on the signal `[1, 2, 3]` with zero coefficients and the
default scale: the final reconstruction copies sample 0 exactly. -/
theorem seeds_exact_witness :
    (3 : Nat) ≤ ([1, 2, 3] : List ℚ).length ∧
    (reconstructed_final 0 0 0 0 0 0 0 10000 [1, 2, 3])[0]?
      = ([1, 2, 3] : List ℚ)[0]? :=
  ⟨by norm_num, (seeds_exact 0 0 0 0 0 0 0 10000 [1, 2, 3] (by norm_num)).2.2.2.2.1⟩
